import Mathlib

/-!
# Verification of the favorites persistence layer of a QR-code Chrome extension

Shallow embedding of `src/types.ts` (data model), `src/storage-service.ts`
(storage serialization, validation, import/export) and
`src/favorites-manager.ts` (favorites CRUD, default naming).

Modelling conventions:
* JavaScript `Date` values are modelled as `Int` millisecond timestamps
  (`new Date()` / `Date.now()` become an explicit `now : Int` parameter).
* JSON values (the form data takes inside `chrome.storage.local`, which
  serializes with JSON semantics) are modelled by the inductive `JVal`;
  JSON numbers are modelled as `Int` (no claim depends on fractional
  settings values).
* The ISO-8601 rendering `Date.prototype.toISOString` and the matching
  `new Date(string)` parse are modelled by an injective decimal encoding
  of the millisecond count (`isoRender` / `parseDateString`); the claims
  only depend on the rendering being a string form that parses back to
  the same instant.  `new Date(x)` on an unparseable value produces an
  Invalid Date, modelled by the sentinel `0`; no claim exercises it.
* `Math.random`-based id generation is modelled by explicit `rand` string
  inputs / a `fresh : Nat → String` supply.
* Thrown exceptions become `Except` results; the Chrome storage adapter
  itself (network of `chrome.storage.local` calls) is abstracted to the
  value it holds.
-/

set_option maxRecDepth 8192

namespace QRExt

/-- JSON values, as stored in `chrome.storage.local` and produced by
`JSON.parse`.  Numbers are modelled as integers. -/
inductive JVal where
  | null
  | bool (b : Bool)
  | num (n : Int)
  | str (s : String)
  | arr (elems : List JVal)
  | obj (fields : List (String × JVal))

/-- JavaScript truthiness of a JSON value (`!x` / `x || y`). -/
def truthy : JVal → Bool
  | .null => false
  | .bool b => b
  | .num n => n != 0
  | .str s => s != ""
  | .arr _ => true
  | .obj _ => true

/-- `typeof x === 'object'` — true for plain objects, arrays and `null`. -/
def isObjectType : JVal → Bool
  | .null => true
  | .arr _ => true
  | .obj _ => true
  | _ => false

/-- `x === null` at the JSON level. -/
def isNullJ : JVal → Bool
  | .null => true
  | _ => false

/-- Property access `v[k]`: `none` models `undefined` (also the result of
accessing a property on a non-object). -/
def getField : JVal → String → Option JVal
  | .obj fs, k => fs.lookup k
  | _, _ => none

/-- `typeof v[k] === 'string'`. -/
def isStringField (v : JVal) (k : String) : Bool :=
  match getField v k with
  | some (.str _) => true
  | _ => false

/-! ## JavaScript string helpers (trim, whitespace collapsing) -/

/-- The characters matched by the JavaScript `\s` class / removed by
`String.prototype.trim` (the ASCII part; the source only ever meets these). -/
def jsWs (c : Char) : Bool :=
  c = ' ' || c = '\t' || c = '\n' || c = '\r' || c = '\x0b' || c = '\x0c'

/-- `String.prototype.trim` on a character list. -/
def jsTrimList (cs : List Char) : List Char :=
  ((cs.dropWhile jsWs).reverse.dropWhile jsWs).reverse

/-- `replace(/\s+/g, ' ')`: every maximal whitespace run becomes one space. -/
def collapseWsList : List Char → List Char
  | [] => []
  | [c] => if jsWs c then [' '] else [c]
  | c1 :: c2 :: cs =>
    if jsWs c1 then
      if jsWs c2 then collapseWsList (c2 :: cs)
      else ' ' :: collapseWsList (c2 :: cs)
    else c1 :: collapseWsList (c2 :: cs)

/-- `String.prototype.trim` on strings. -/
def jsTrimS (s : String) : String := String.mk (jsTrimList s.data)

/-- `lastIndexOf c`, as `none` (JS `-1`) or the last index holding `c`. -/
def lastIdxOf (c : Char) : List Char → Option Nat
  | [] => none
  | x :: xs =>
    match lastIdxOf c xs with
    | some i => some (i + 1)
    | none => if x = c then some 0 else none

/-! ## Data model (`src/types.ts`) -/

/-- `HistoryEntry`: one saved favorite.  Timestamps are millisecond counts
(the model of JS `Date`). -/
structure HistoryEntry where
  id : String
  text : String
  name : String
  createdAt : Int
  updatedAt : Int
deriving DecidableEq, Repr

/-- `ExtensionSettings`. -/
structure ExtensionSettings where
  maxFavorites : Int
  defaultQRSize : Int
  lastAccessedId : Option String := none
deriving DecidableEq, Repr

/-- `ExtensionStorage`: the persisted root. -/
structure ExtensionStorage where
  favorites : List HistoryEntry
  settings : ExtensionSettings
deriving DecidableEq, Repr

/-- `DEFAULT_SETTINGS` from `types.ts`. -/
def DEFAULT_SETTINGS : ExtensionSettings :=
  { maxFavorites := 100, defaultQRSize := 256 }

/-- `createDefaultStorage()` from `types.ts`. -/
def createDefaultStorage : ExtensionStorage :=
  { favorites := [], settings := DEFAULT_SETTINGS }

/-- The id string `` `qr_${Date.now()}_${Math.random().toString(36).substr(2, 9)}` ``
built by `createHistoryEntry` (and inline by `importHistory`); the random
suffix is an explicit input. -/
def genId (now : Int) (rand : String) : String :=
  "qr_" ++ toString now ++ "_" ++ rand

/-- `createHistoryEntry(text, name)` from `types.ts` with no explicit id:
fresh id, `createdAt = updatedAt = now`. -/
def createHistoryEntry (text name : String) (now : Int) (rand : String) :
    HistoryEntry :=
  { id := genId now rand, text := text, name := name,
    createdAt := now, updatedAt := now }

/-- `isHistoryEntry` from `types.ts`.  The string/Date typing it checks is
enforced by the model's types, so on typed values it is always true. -/
def isHistoryEntryB (_e : HistoryEntry) : Bool := true

/-- `isExtensionSettings` from `types.ts`: numeric typing is enforced by the
model's types; the residual content is positivity of both numbers. -/
def isExtensionSettingsB (s : ExtensionSettings) : Bool :=
  decide (0 < s.maxFavorites) && decide (0 < s.defaultQRSize)

/-- `isExtensionStorage` from `types.ts`. -/
def isExtensionStorageB (st : ExtensionStorage) : Bool :=
  st.favorites.all isHistoryEntryB && isExtensionSettingsB st.settings

/-! ## Date codec

`Date.prototype.toISOString` / `new Date(string)` are modelled by an
injective decimal rendering of the millisecond count and its parse. -/

/-- One decimal digit as a character. -/
def digitChar (d : Nat) : Char :=
  if d = 0 then '0' else if d = 1 then '1' else if d = 2 then '2'
  else if d = 3 then '3' else if d = 4 then '4' else if d = 5 then '5'
  else if d = 6 then '6' else if d = 7 then '7' else if d = 8 then '8'
  else '9'

/-- One character back to its decimal digit. -/
def charDigit (c : Char) : Nat :=
  if c = '0' then 0 else if c = '1' then 1 else if c = '2' then 2
  else if c = '3' then 3 else if c = '4' then 4 else if c = '5' then 5
  else if c = '6' then 6 else if c = '7' then 7 else if c = '8' then 8
  else 9

/-- Little-endian decimal digits of a natural number, with explicit fuel to
keep the recursion structural (take `fuel ≥ m`). -/
def digitsAux : Nat → Nat → List Nat
  | _, 0 => []
  | 0, _ + 1 => []
  | fuel + 1, m + 1 => (m + 1) % 10 :: digitsAux fuel ((m + 1) / 10)

/-- Decimal rendering of a natural number (big-endian digit characters). -/
def encodeNat (m : Nat) : List Char :=
  ((digitsAux m m).map digitChar).reverse

/-- Parse of `encodeNat`. -/
def decodeNat (cs : List Char) : Nat :=
  Nat.ofDigits 10 (cs.reverse.map charDigit)

/-- The model of `toISOString` on a millisecond timestamp. -/
def isoRender (n : Int) : String :=
  if n < 0 then String.mk ('-' :: encodeNat n.natAbs)
  else String.mk (encodeNat n.toNat)

/-- Decimal digit characters. -/
def isDigitChar (c : Char) : Bool :=
  c = '0' || c = '1' || c = '2' || c = '3' || c = '4' || c = '5' ||
  c = '6' || c = '7' || c = '8' || c = '9'

/-- The model of `new Date(s).getTime()` on a date string: `none` models an
Invalid Date. -/
def parseDateString (s : String) : Option Int :=
  match s.data with
  | '-' :: cs => if cs.all isDigitChar then some (-(decodeNat cs : Int)) else none
  | cs => if cs.all isDigitChar then some (decodeNat cs) else none

/-- `new Date(x)` on an arbitrary JSON value, as a millisecond count; an
Invalid Date is collapsed to the sentinel `0` (no claim exercises it). -/
def jsNewDate : JVal → Int
  | .num n => n
  | .str s => (parseDateString s).getD 0
  | _ => 0

/-! ## `FavoritesManager.generateDefaultName` (favorites-manager.ts:351-376) -/

/-- The `cleanText` of `generateDefaultName`:
`text.trim().replace(/\s+/g, ' ')`. -/
def cleanOf (text : String) : List Char :=
  collapseWsList (jsTrimList text.data)

/-- `generateDefaultName(text)`.  The current date-time string used for the
empty-input fallback is an explicit `nowString` input. -/
def generateDefaultName (text : String) (nowString : String) : String :=
  let cleanText := cleanOf text
  if cleanText.length = 0 then
    "QR Code " ++ nowString
  else if cleanText.length ≤ 30 then
    String.mk cleanText
  else
    let truncated := cleanText.take 30
    match lastIdxOf ' ' truncated with
    | some i =>
      if 15 < i then String.mk (truncated.take i) ++ "..."
      else String.mk truncated ++ "..."
    | none => String.mk truncated ++ "..."

/-! ## StorageService (`src/storage-service.ts`) -/

/-- The error taxonomy of `StorageError` / `FavoritesError`, keyed by the
distinct throw sites the claims talk about. -/
inductive StorageFailure where
  | invalidStructure            -- 'Invalid storage data structure' (save)
  | dataTooLarge                -- 'Data exceeds maximum storage size limit'
  | invalidImportFormat         -- import: structural validation failed
  | invalidJson                 -- import: JSON.parse threw SyntaxError
  | capacityReached (max : Int) -- saveFavorite: maximum limit reached
  | insufficientSpace           -- saveFavorite: hasEnoughSpace == false
  | notFound (id : String)      -- updateFavorite: id not found
deriving DecidableEq, Repr

/-- `MAX_STORAGE_SIZE = 5 * 1024 * 1024`. -/
def MAX_STORAGE_SIZE : Nat := 5 * 1024 * 1024

/-- `isValidStorageData` (storage-service.ts:212-233), per-entry part:
`typeof entry === 'object' && entry !== null` and string `id`/`text`/`name`. -/
def isValidEntryData (e : JVal) : Bool :=
  isObjectType e && !isNullJ e &&
  isStringField e "id" && isStringField e "text" && isStringField e "name"

/-- The settings checks of `isValidStorageData` (storage-service.ts:216-218):
`obj.settings` truthy object, numeric positive `maxFavorites` and
`defaultQRSize`. -/
def settingsFieldOk (s : JVal) : Bool :=
  if !truthy s || !isObjectType s then false
  else
    (match getField s "maxFavorites" with
     | some (.num m) => decide (0 < m)
     | _ => false) &&
    (match getField s "defaultQRSize" with
     | some (.num q) => decide (0 < q)
     | _ => false)

/-- `isValidStorageData` (storage-service.ts:212-233). -/
def isValidStorageData (v : JVal) : Bool :=
  if !truthy v || !isObjectType v then false
  else
    (match getField v "settings" with
     | some s => settingsFieldOk s
     | none => false) &&
    (match getField v "favorites" with
     | some (.arr es) => es.all isValidEntryData
     | _ => false)

/-- Normalization of one loaded favorite (storage-service.ts:187-191): keep
the string fields, coerce the date fields through `new Date(...)`.  Fields of
unexpected shapes cannot be represented in the typed in-memory model; the
`getD` fallbacks below are dead under `isValidStorageData`. -/
def parseEntry (e : JVal) : HistoryEntry :=
  { id := (match getField e "id" with | some (.str s) => s | _ => "")
    text := (match getField e "text" with | some (.str s) => s | _ => "")
    name := (match getField e "name" with | some (.str s) => s | _ => "")
    createdAt := jsNewDate ((getField e "createdAt").getD .null)
    updatedAt := jsNewDate ((getField e "updatedAt").getD .null) }

/-- The settings object kept by the `{...data}` spread on load, read back
into the typed model. -/
def parseSettings (s : JVal) : ExtensionSettings :=
  { maxFavorites := (match getField s "maxFavorites" with | some (.num m) => m | _ => 0)
    defaultQRSize := (match getField s "defaultQRSize" with | some (.num q) => q | _ => 0)
    lastAccessedId := (match getField s "lastAccessedId" with | some (.str i) => some i | _ => none) }

/-- The whole-root normalization on load (storage-service.ts:185-192). -/
def parseStorage (v : JVal) : ExtensionStorage :=
  { favorites :=
      (match getField v "favorites" with
       | some (.arr es) => es.map parseEntry
       | _ => [])
    settings := parseSettings ((getField v "settings").getD .null) }

/-- `loadExtensionStorage` (storage-service.ts:169-207).  `stored` is the
value under the storage key; `load` coerces a falsy stored value to `null`
(`result[key] || null`), absent or invalid data becomes the default root,
and the structurally-invalid branch returns defaults instead of raising —
the function is total, it has no error result. -/
def loadExtensionStorage (stored : Option JVal) : ExtensionStorage :=
  match stored with
  | none => createDefaultStorage
  | some v =>
    if !truthy v then createDefaultStorage
    else if !isValidStorageData v then createDefaultStorage
    else parseStorage v

/-- JSON serialization of one in-memory favorite (what `chrome.storage`
holds: `Date` fields rendered through their string form). -/
def entryToJson (e : HistoryEntry) : JVal :=
  .obj [("id", .str e.id), ("text", .str e.text), ("name", .str e.name),
        ("createdAt", .str (isoRender e.createdAt)),
        ("updatedAt", .str (isoRender e.updatedAt))]

/-- JSON serialization of the settings. -/
def settingsToJson (s : ExtensionSettings) : JVal :=
  .obj ([("maxFavorites", .num s.maxFavorites),
         ("defaultQRSize", .num s.defaultQRSize)] ++
        (match s.lastAccessedId with
         | some i => [("lastAccessedId", .str i)]
         | none => []))

/-- JSON serialization of the root. -/
def storageToJson (st : ExtensionStorage) : JVal :=
  .obj [("favorites", .arr (st.favorites.map entryToJson)),
        ("settings", settingsToJson st.settings)]

mutual

/-- `JSON.stringify` (used by `save` only for the byte-size gate; string
escaping is not modelled, so lengths are approximate — no claim depends on
exact byte counts). -/
def jsonStringify : JVal → String
  | .null => "null"
  | .bool b => if b then "true" else "false"
  | .num n => toString n
  | .str s => "\"" ++ s ++ "\""
  | .arr xs => "[" ++ jsonStringifyElems xs ++ "]"
  | .obj fs => "\x7b" ++ jsonStringifyFields fs ++ "\x7d"

/-- Comma-separated array elements. -/
def jsonStringifyElems : List JVal → String
  | [] => ""
  | [x] => jsonStringify x
  | x :: y :: xs => jsonStringify x ++ "," ++ jsonStringifyElems (y :: xs)

/-- Comma-separated object fields. -/
def jsonStringifyFields : List (String × JVal) → String
  | [] => ""
  | [(k, x)] => "\"" ++ k ++ "\":" ++ jsonStringify x
  | (k, x) :: f :: fs =>
      "\"" ++ k ++ "\":" ++ jsonStringify x ++ "," ++ jsonStringifyFields (f :: fs)

end

/-- `saveExtensionStorage` (storage-service.ts:243-265) composed with `save`
(storage-service.ts:42-81): structural validation, then the 5 MiB size gate,
then the write; on success the result carries the JSON blob now held by the
store. -/
def saveExtensionStorage (st : ExtensionStorage) : Except StorageFailure JVal :=
  if !isExtensionStorageB st then .error .invalidStructure
  else if MAX_STORAGE_SIZE < (jsonStringify (storageToJson st)).length then
    .error .dataTooLarge
  else .ok (storageToJson st)

/-! ## FavoritesManager (`src/favorites-manager.ts`) -/

/-- `customName || this.generateDefaultName(text)` (favorites-manager.ts:77):
JS falsiness makes the empty string fall back to the generated name too. -/
def computeName (customName : Option String) (text nowString : String) : String :=
  match customName with
  | some c => if c = "" then generateDefaultName text nowString else c
  | none => generateDefaultName text nowString

/-- `storage.favorites.push(entry)` on the root. -/
def pushFavorite (storage : ExtensionStorage) (e : HistoryEntry) :
    ExtensionStorage :=
  { storage with favorites := storage.favorites ++ [e] }

/-- `saveFavorite(text, customName?)` (favorites-manager.ts:48-103).
Environment inputs made explicit: `hasSpace` is the answer of
`hasEnoughSpace`, `now`/`rand` feed `createHistoryEntry`, `nowString` the
date-time text used by `generateDefaultName`.  On success the result
carries the created entry and the root that was persisted. -/
def saveFavorite (storage : ExtensionStorage) (text : String)
    (customName : Option String) (hasSpace : Bool) (now : Int)
    (nowString rand : String) :
    Except StorageFailure (HistoryEntry × ExtensionStorage) :=
  if storage.settings.maxFavorites ≤ (storage.favorites.length : Int) then
    .error (.capacityReached storage.settings.maxFavorites)
  else if !hasSpace then
    .error .insufficientSpace
  else
    match saveExtensionStorage (pushFavorite storage
        (createHistoryEntry text (computeName customName text nowString) now rand)) with
    | .error e => .error e
    | .ok _ =>
      .ok (createHistoryEntry text (computeName customName text nowString) now rand,
        pushFavorite storage
          (createHistoryEntry text (computeName customName text nowString) now rand))

/-- The root held by the store after a `saveFavorite` call: the persisted
root on success; a thrown error leaves the store untouched (the only write
is `saveExtensionStorage` on the success path). -/
def storeAfterSave (storage : ExtensionStorage) (text : String)
    (customName : Option String) (hasSpace : Bool) (now : Int)
    (nowString rand : String) : ExtensionStorage :=
  match saveFavorite storage text customName hasSpace now nowString rand with
  | .ok (_, st) => st
  | .error _ => storage

/-- The per-call environment of one `saveFavorite` invocation. -/
structure SaveArgs where
  text : String
  customName : Option String := none
  hasSpace : Bool := true
  now : Int
  nowString : String := ""
  rand : String
deriving Repr

/-- The stored root after a sequence of `saveFavorite` calls. -/
def saveMany (storage : ExtensionStorage) : List SaveArgs → ExtensionStorage
  | [] => storage
  | a :: rest =>
    saveMany
      (storeAfterSave storage a.text a.customName a.hasSpace a.now a.nowString a.rand)
      rest

/-- `Partial<Omit<HistoryEntry, 'id' | 'createdAt'>>`: the fields a caller
may pass to `updateFavorite` (`id`/`createdAt` are excluded by the type). -/
structure FavUpdate where
  text : Option String := none
  name : Option String := none
  updatedAt : Option Int := none
deriving DecidableEq, Repr

/-- The entry rebuild of `updateFavorite` (favorites-manager.ts:168-175):
`{ id, text, name, createdAt, updatedAt: new Date(), ...updates }` — the
spread applies the caller's fields AFTER the defaults, so a present field of
`updates` overrides the default (including `updatedAt`). -/
def applyUpdate (existing : HistoryEntry) (updates : FavUpdate) (now : Int) :
    HistoryEntry :=
  { id := existing.id
    text := updates.text.getD existing.text
    name := updates.name.getD existing.name
    createdAt := existing.createdAt
    updatedAt := updates.updatedAt.getD now }

/-- `updateFavorite(id, updates)` (favorites-manager.ts:146-198). -/
def updateFavorite (storage : ExtensionStorage) (id : String)
    (updates : FavUpdate) (now : Int) :
    Except StorageFailure (HistoryEntry × ExtensionStorage) :=
  match storage.favorites.findIdx? (fun e => e.id == id) with
  | none => .error (.notFound id)
  | some i =>
    match storage.favorites[i]? with
    | none => .error (.notFound id)  -- the source's redundant nullish guard
    | some existing =>
      match saveExtensionStorage { storage with
          favorites := storage.favorites.set i (applyUpdate existing updates now) } with
      | .error e => .error e
      | .ok _ =>
        .ok (applyUpdate existing updates now,
          { storage with
            favorites := storage.favorites.set i (applyUpdate existing updates now) })

/-! ## Import (`StorageService.importHistory`, storage-service.ts:366-460) -/

/-- Per-entry part of `isValidImportData` (storage-service.ts:451-459):
object, non-null, string `text` with non-empty trim, string `name`.  Note:
the source does NOT require `name` to be non-empty. -/
def isValidImportEntry (e : JVal) : Bool :=
  isObjectType e && !isNullJ e &&
  (match getField e "text" with
   | some (.str t) => decide (0 < (jsTrimS t).length)
   | _ => false) &&
  isStringField e "name"

/-- `isValidImportData` (storage-service.ts:447-460). -/
def isValidImportData (v : JVal) : Bool :=
  if !truthy v || !isObjectType v then false
  else
    match getField v "favorites" with
    | some (.arr es) => es.all isValidImportEntry
    | _ => false

/-- The format-error gate of `importHistory` (storage-service.ts:368-376 and
430-435): a `SyntaxError` from `JSON.parse` (modelled by the `Except` input)
becomes the JSON-format error, a payload failing `isValidImportData`
the import-format error; otherwise no format error is raised. -/
def importFormatError (parsed : Except Unit JVal) : Option StorageFailure :=
  match parsed with
  | .error _ => some .invalidJson
  | .ok v => if !isValidImportData v then some .invalidImportFormat else none

/-- `'merge' | 'replace'`. -/
inductive ImportMode where
  | merge
  | replace
deriving DecidableEq, Repr

/-- A validated import payload entry, in typed form: string `text`/`name`,
optional string `id`, millisecond timestamps.  An absent source timestamp
(`new Date(undefined)`, an Invalid Date) is the sentinel `0`, matching the
date model. -/
structure ImportEntry where
  text : String
  name : String
  id : Option String := none
  createdAt : Int := 0
  updatedAt : Int := 0
deriving DecidableEq, Repr

/-- `entry.id || fresh` (storage-service.ts:385): a missing or empty
(falsy) source id is replaced by a freshly generated one. -/
def importEntryId (fresh : String) : Option String → String
  | some s => if s = "" then fresh else s
  | none => fresh

/-- Replace-mode mapping (storage-service.ts:384-390).  The fresh-id supply
is indexed by payload position. -/
def replaceEntries (fresh : Nat → String) (payload : List ImportEntry) :
    List HistoryEntry :=
  payload.mapIdx fun i e =>
    { id := importEntryId (fresh i) e.id, text := e.text, name := e.name,
      createdAt := e.createdAt, updatedAt := e.updatedAt }

/-- Merge-mode loop (storage-service.ts:394-411): `texts` is the
`existingTexts` set, seeded with the stored favorites' texts and extended on
every append; a payload entry whose text is in the set is skipped, any other
is appended with a fresh id (`fresh` is indexed by the running `imported`
count, one call per append). -/
def mergeLoop (fresh : Nat → String) :
    List ImportEntry → List String → List HistoryEntry → Nat → Nat →
    List HistoryEntry × Nat × Nat
  | [], _, favs, imported, skipped => (favs, imported, skipped)
  | e :: rest, texts, favs, imported, skipped =>
    if e.text ∈ texts then
      mergeLoop fresh rest texts favs imported (skipped + 1)
    else
      mergeLoop fresh rest (e.text :: texts)
        (favs ++ [{ id := fresh imported, text := e.text, name := e.name,
                    createdAt := e.createdAt, updatedAt := e.updatedAt }])
        (imported + 1) skipped

/-- Insertion step of the eviction sort. -/
def insertByUpdatedDesc (e : HistoryEntry) :
    List HistoryEntry → List HistoryEntry
  | [] => [e]
  | y :: ys =>
    if e.updatedAt < y.updatedAt then y :: insertByUpdatedDesc e ys
    else e :: y :: ys

/-- The eviction sort (storage-service.ts:418):
`sort((a, b) => new Date(b.updatedAt).getTime() - new Date(a.updatedAt).getTime())`
is a stable descending sort by `updatedAt`; stable sorts for a fixed
preorder coincide, so stable insertion sort is extensionally the source's
`Array.prototype.sort`. -/
def sortByUpdatedDesc : List HistoryEntry → List HistoryEntry
  | [] => []
  | x :: xs => insertByUpdatedDesc x (sortByUpdatedDesc xs)

/-- The `maxFavorites` enforcement after either import mode
(storage-service.ts:414-421): when over the ceiling, keep the
`maxFavorites` most recently updated entries and count the excess as
skipped. -/
def enforceLimit (st : ExtensionStorage) (imported skipped : Nat) :
    ExtensionStorage × Nat × Nat :=
  if st.settings.maxFavorites < (st.favorites.length : Int) then
    let excess := st.favorites.length - st.settings.maxFavorites.toNat
    ({ st with
        favorites :=
          (sortByUpdatedDesc st.favorites).take st.settings.maxFavorites.toNat },
     imported, skipped + excess)
  else (st, imported, skipped)

/-- `importHistory` on a validated, typed payload (storage-service.ts:378-425):
mode dispatch, then ceiling enforcement.  The final
`saveExtensionStorage` byte-size gate is orthogonal to the import claims and
modelled separately (see `saveExtensionStorage`). -/
def importHistoryTyped (storage : ExtensionStorage)
    (payload : List ImportEntry) (mode : ImportMode) (fresh : Nat → String) :
    ExtensionStorage × Nat × Nat :=
  match mode with
  | .replace =>
    enforceLimit { storage with favorites := replaceEntries fresh payload }
      (replaceEntries fresh payload).length 0
  | .merge =>
    enforceLimit
      { storage with
        favorites :=
          (mergeLoop fresh payload (storage.favorites.map (·.text))
            storage.favorites 0 0).1 }
      (mergeLoop fresh payload (storage.favorites.map (·.text))
        storage.favorites 0 0).2.1
      (mergeLoop fresh payload (storage.favorites.map (·.text))
        storage.favorites 0 0).2.2

/-! ## Lemmas: the date codec round-trips -/

lemma ofDigits_digitsAux : ∀ fuel m : Nat, m ≤ fuel →
    Nat.ofDigits 10 (digitsAux fuel m) = m := by
  intro fuel
  induction fuel with
  | zero =>
    intro m hm
    interval_cases m
    simp [digitsAux]
  | succ f ih =>
    intro m hm
    match m with
    | 0 => simp [digitsAux]
    | k + 1 =>
      have hdiv : (k + 1) / 10 ≤ f := by
        have h1 : (k + 1) / 10 < k + 1 := Nat.div_lt_self (Nat.succ_pos k) (by norm_num)
        omega
      simp only [digitsAux, Nat.ofDigits_cons, ih _ hdiv]
      omega

lemma digitsAux_lt : ∀ fuel m d : Nat, d ∈ digitsAux fuel m → d < 10 := by
  intro fuel
  induction fuel with
  | zero =>
    intro m d hd
    match m with
    | 0 => simp [digitsAux] at hd
    | _ + 1 => simp [digitsAux] at hd
  | succ f ih =>
    intro m d hd
    match m with
    | 0 => simp [digitsAux] at hd
    | k + 1 =>
      simp only [digitsAux, List.mem_cons] at hd
      rcases hd with h | h
      · omega
      · exact ih _ _ h

lemma charDigit_digitChar : ∀ d : Nat, d < 10 → charDigit (digitChar d) = d := by
  decide

lemma isDigitChar_digitChar (d : Nat) : isDigitChar (digitChar d) = true := by
  unfold digitChar isDigitChar
  repeat' split
  all_goals decide

lemma decodeNat_encodeNat (m : Nat) : decodeNat (encodeNat m) = m := by
  unfold decodeNat encodeNat
  rw [List.reverse_reverse, List.map_map]
  have hmap : List.map (charDigit ∘ digitChar) (digitsAux m m) =
      List.map id (digitsAux m m) :=
    List.map_congr_left (fun d hd => charDigit_digitChar d (digitsAux_lt m m d hd))
  rw [hmap, List.map_id]
  exact ofDigits_digitsAux m m le_rfl

lemma encodeNat_all_digits (m : Nat) :
    ∀ c ∈ encodeNat m, isDigitChar c = true := by
  intro c hc
  unfold encodeNat at hc
  rw [List.mem_reverse, List.mem_map] at hc
  obtain ⟨d, _, rfl⟩ := hc
  exact isDigitChar_digitChar d

lemma encodeNat_eq_nil {m : Nat} (h : encodeNat m = []) : m = 0 := by
  unfold encodeNat at h
  rw [List.reverse_eq_nil_iff, List.map_eq_nil_iff] at h
  have := ofDigits_digitsAux m m le_rfl
  rw [h] at this
  simpa [Nat.ofDigits] using this.symm

lemma parseDateString_encodeNat (m : Nat) :
    parseDateString (String.mk (encodeNat m)) = some m := by
  unfold parseDateString
  cases hE : encodeNat m with
  | nil =>
    have hm := encodeNat_eq_nil hE
    subst hm
    simp [hE, decodeNat, Nat.ofDigits]
  | cons c cs =>
    have hcdig : isDigitChar c = true := by
      refine encodeNat_all_digits m c ?_
      rw [hE]; exact List.mem_cons_self c cs
    have hcne : c ≠ '-' := by
      intro h; rw [h] at hcdig; simp [isDigitChar] at hcdig
    have hall : (c :: cs).all isDigitChar = true := by
      rw [List.all_eq_true]
      intro x hx
      refine encodeNat_all_digits m x ?_
      rw [hE]; exact hx
    have hdec : decodeNat (c :: cs) = m := by
      rw [← hE]; exact decodeNat_encodeNat m
    simp only [hE]
    split
    · next cs' heq =>
      exfalso
      exact hcne (by injection heq)
    · rw [hall]
      simp [hdec]

lemma parseDateString_isoRender (n : Int) :
    parseDateString (isoRender n) = some n := by
  unfold isoRender
  by_cases hn : n < 0
  · rw [if_pos hn]
    have hall : (encodeNat n.natAbs).all isDigitChar = true := by
      rw [List.all_eq_true]
      exact fun x hx => encodeNat_all_digits n.natAbs x hx
    unfold parseDateString
    simp only [hall, if_true]
    have : decodeNat (encodeNat n.natAbs) = n.natAbs := decodeNat_encodeNat _
    rw [this]
    congr 1
    omega
  · rw [if_neg hn]
    rw [parseDateString_encodeNat n.toNat]
    exact congrArg some (Int.toNat_of_nonneg (by omega))

/-! ## Lemmas: `saveFavorite` -/

/-- Inversion of a successful `saveFavorite`. -/
lemma saveFavorite_ok {storage : ExtensionStorage} {text : String}
    {customName : Option String} {hasSpace : Bool} {now : Int}
    {nowString rand : String} {entry : HistoryEntry} {st' : ExtensionStorage}
    (h : saveFavorite storage text customName hasSpace now nowString rand =
      .ok (entry, st')) :
    entry = createHistoryEntry text (computeName customName text nowString) now rand ∧
    st' = pushFavorite storage entry := by
  unfold saveFavorite at h
  split at h
  · exact absurd h (by simp)
  · split at h
    · exact absurd h (by simp)
    · split at h
      · exact absurd h (by simp)
      · rw [Except.ok.injEq, Prod.mk.injEq] at h
        obtain ⟨h1, h2⟩ := h
        exact ⟨h1.symm, by rw [← h1, ← h2]⟩

/-- After any `saveFavorite` call the stored id list is unchanged or extended
by the one generated id. -/
lemma storeAfterSave_ids (storage : ExtensionStorage) (text : String)
    (customName : Option String) (hasSpace : Bool) (now : Int)
    (nowString rand : String) :
    (storeAfterSave storage text customName hasSpace now nowString rand).favorites.map (·.id) =
      storage.favorites.map (·.id) ∨
    (storeAfterSave storage text customName hasSpace now nowString rand).favorites.map (·.id) =
      storage.favorites.map (·.id) ++ [genId now rand] := by
  unfold storeAfterSave
  rcases hsf : saveFavorite storage text customName hasSpace now nowString rand with e | ⟨entry, st'⟩
  · left; rfl
  · right
    obtain ⟨he, hst⟩ := saveFavorite_ok hsf
    rw [hst, pushFavorite, he]
    simp [createHistoryEntry]

/-- The stored id list after a sequence of `saveFavorite` calls is a sublist
of the initial ids followed by the generated ids. -/
lemma saveMany_ids_sublist (args : List SaveArgs) : ∀ storage : ExtensionStorage,
    ((saveMany storage args).favorites.map (·.id)).Sublist
      (storage.favorites.map (·.id) ++ args.map (fun a => genId a.now a.rand)) := by
  induction args with
  | nil => intro storage; simp [saveMany]
  | cons a rest ih =>
    intro storage
    show ((saveMany (storeAfterSave storage a.text a.customName a.hasSpace a.now a.nowString a.rand) rest).favorites.map (·.id)).Sublist _
    have hstep := storeAfterSave_ids storage a.text a.customName a.hasSpace a.now a.nowString a.rand
    have hrec := ih (storeAfterSave storage a.text a.customName a.hasSpace a.now a.nowString a.rand)
    rcases hstep with h | h
    · rw [h] at hrec
      refine hrec.trans ?_
      rw [List.map_cons]
      refine List.Sublist.append_left ?_ _
      exact List.sublist_cons_self _ _
    · rw [h] at hrec
      refine hrec.trans ?_
      rw [List.map_cons, List.append_assoc, List.singleton_append]

/-! ## C2: capacity ceiling on `saveFavorite` -/

/-- C2.  Whenever the stored favorites list has length `≥ maxFavorites`,
`saveFavorite` fails with the capacity error — regardless of the space
check, name choice or generator inputs — and the stored root is left
unchanged (the error is thrown before any write). -/
theorem saveFavorite_capacity (storage : ExtensionStorage) (text : String)
    (customName : Option String) (hasSpace : Bool) (now : Int)
    (nowString rand : String)
    (h : storage.settings.maxFavorites ≤ (storage.favorites.length : Int)) :
    saveFavorite storage text customName hasSpace now nowString rand =
      .error (.capacityReached storage.settings.maxFavorites) ∧
    storeAfterSave storage text customName hasSpace now nowString rand = storage := by
  have h1 : saveFavorite storage text customName hasSpace now nowString rand =
      .error (.capacityReached storage.settings.maxFavorites) := by
    unfold saveFavorite
    rw [if_pos h]
  refine ⟨h1, ?_⟩
  unfold storeAfterSave
  rw [h1]

/-- A concrete stored favorite. -/
def fav1 : HistoryEntry :=
  { id := "i1", text := "t", name := "n", createdAt := 50, updatedAt := 60 }

/-- A root already holding its (one-entry) ceiling. -/
def fullStore : ExtensionStorage :=
  { favorites := [fav1],
    settings := { maxFavorites := 1, defaultQRSize := 256 } }

/-- Witness for C2 at a concrete full store. -/
theorem saveFavorite_capacity_witness :
    fullStore.settings.maxFavorites ≤ (fullStore.favorites.length : Int) ∧
    (saveFavorite fullStore "x" none true 70 "T" "r" =
      .error (.capacityReached fullStore.settings.maxFavorites) ∧
     storeAfterSave fullStore "x" none true 70 "T" "r" = fullStore) :=
  ⟨by decide, saveFavorite_capacity fullStore "x" none true 70 "T" "r" (by decide)⟩

/-! ## C9: id uniqueness across `saveFavorite` sequences -/

/-- Counterexample to C9 as stated: the generator output
`` `qr_${Date.now()}_${random}` `` is the only uniqueness mechanism — no
dedup check guards the push — so two successful `saveFavorite` calls whose
millisecond timestamp and random suffix coincide persist two entries with
the same id. -/
theorem saveFavorite_id_collision :
    (saveFavorite createDefaultStorage "a" none true 5 "T" "x").isOk = true ∧
    (saveFavorite (saveMany createDefaultStorage [{ text := "a", now := 5, nowString := "T", rand := "x" }])
      "b" none true 5 "T" "x").isOk = true ∧
    ((saveMany createDefaultStorage
        [{ text := "a", now := 5, nowString := "T", rand := "x" },
         { text := "b", now := 5, nowString := "T", rand := "x" }]).favorites.map
      (·.id)).Nodup = False := by
  refine ⟨by decide, by decide, ?_⟩
  simp only [eq_iff_iff, iff_false]
  decide

/-- C9 (amended).  Provided the generated id strings are pairwise distinct
and distinct from the ids already stored (what the timestamp+random
construction is designed to make overwhelmingly likely), any sequence of
`saveFavorite` calls — successful or not — leaves the stored favorites with
pairwise-distinct ids. -/
theorem saveMany_id_unique (storage : ExtensionStorage) (args : List SaveArgs)
    (h : (storage.favorites.map (·.id) ++
      args.map (fun a => genId a.now a.rand)).Nodup) :
    ((saveMany storage args).favorites.map (·.id)).Nodup :=
  List.Nodup.sublist (saveMany_ids_sublist args storage) h

/-- Witness for the amended C9: two saves with distinct generator inputs. -/
theorem saveMany_id_unique_witness :
    (createDefaultStorage.favorites.map (·.id) ++
      ([{ text := "a", now := 1, nowString := "T", rand := "x" },
        { text := "b", now := 2, nowString := "T", rand := "y" }] : List SaveArgs).map
        (fun a => genId a.now a.rand)).Nodup ∧
    ((saveMany createDefaultStorage
        [{ text := "a", now := 1, nowString := "T", rand := "x" },
         { text := "b", now := 2, nowString := "T", rand := "y" }]).favorites.map
      (·.id)).Nodup :=
  ⟨by decide, saveMany_id_unique createDefaultStorage _ (by decide)⟩

/-! ## Lemmas: `updateFavorite` -/

/-- `find?` success yields the `findIdx?` index holding the found element. -/
lemma find?_exists_findIdx {α : Type _} {p : α → Bool} {l : List α} {E : α}
    (h : l.find? p = some E) :
    ∃ i, l.findIdx? p = some i ∧ l[i]? = some E := by
  induction l with
  | nil => simp at h
  | cons a t ih =>
    by_cases hp : p a
    · rw [List.find?_cons_of_pos _ hp] at h
      obtain rfl : a = E := Option.some.inj h
      exact ⟨0, by rw [List.findIdx?_cons, if_pos hp], by simp⟩
    · rw [List.find?_cons_of_neg _ hp] at h
      obtain ⟨i, hi, hget⟩ := ih h
      refine ⟨i + 1, ?_, by simpa using hget⟩
      rw [List.findIdx?_cons, if_neg hp, List.findIdx?_succ, hi]
      rfl

/-- Inversion of a successful `updateFavorite`. -/
lemma updateFavorite_ok {storage : ExtensionStorage} {id : String}
    {updates : FavUpdate} {now : Int} {u : HistoryEntry}
    {st' : ExtensionStorage}
    (h : updateFavorite storage id updates now = .ok (u, st')) :
    ∃ i existing, storage.favorites.findIdx? (fun e => e.id == id) = some i ∧
      storage.favorites[i]? = some existing ∧
      u = applyUpdate existing updates now ∧
      st' = { storage with favorites := storage.favorites.set i u } := by
  unfold updateFavorite at h
  split at h
  · exact absurd h (by simp)
  next i hidx =>
    split at h
    · exact absurd h (by simp)
    next existing hget =>
      split at h
      · exact absurd h (by simp)
      · rw [Except.ok.injEq, Prod.mk.injEq] at h
        obtain ⟨h1, h2⟩ := h
        exact ⟨i, existing, hidx, hget, h1.symm, by rw [← h2, ← h1]⟩

/-! ## C1: `updateFavorite` identity preservation -/

/-- Counterexample to C1 as stated: the source spreads `...updates` AFTER
the `updatedAt: new Date()` default (favorites-manager.ts:168-175), so a
caller-supplied `updatedAt` is NOT ignored — here the stored entry has
`updatedAt = 60`, the clock reads `99`, yet the update `{ updatedAt: 10 }`
yields an entry whose `updatedAt` is `10`: neither equal to `now` nor
strictly greater than the previous `updatedAt`. -/
theorem updateFavorite_updatedAt_override :
    (updateFavorite fullStore "i1" { updatedAt := some 10 } 99).toOption.map
      (fun r => r.1.updatedAt) = some 10 ∧
    ¬ (60 : Int) < 10 ∧ (10 : Int) ≠ 99 := by
  refine ⟨?_, by decide, by decide⟩
  decide

/-- C1 (amended).  For the first stored entry `E` matching the id, and a
partial update `U` that does not supply `updatedAt` (`id`/`createdAt` are
not suppliable at all, per the `Partial<Omit<...>>` type), a successful
`updateFavorite(E.id, U)` returns and persists an entry keeping `E.id` and
`E.createdAt`, stamping `updatedAt = now` (strictly newer whenever the
clock advanced), and taking every other field from `U` when given, else
from `E`.  A `U` that does supply `updatedAt` overrides the stamp (see the
counterexample). -/
theorem updateFavorite_preserves_identity (storage : ExtensionStorage)
    (E : HistoryEntry) (U : FavUpdate) (now : Int) (u : HistoryEntry)
    (st' : ExtensionStorage)
    (hfind : storage.favorites.find? (fun e => e.id == E.id) = some E)
    (hU : U.updatedAt = none) (hnow : E.updatedAt < now)
    (hok : updateFavorite storage E.id U now = .ok (u, st')) :
    u.id = E.id ∧ u.createdAt = E.createdAt ∧ u.updatedAt = now ∧
    E.updatedAt < u.updatedAt ∧ u.text = U.text.getD E.text ∧
    u.name = U.name.getD E.name ∧
    ∃ i, storage.favorites[i]? = some E ∧
      st'.favorites = storage.favorites.set i u ∧ st'.favorites[i]? = some u := by
  obtain ⟨i0, hidx0, hget0⟩ := find?_exists_findIdx hfind
  obtain ⟨i, existing, hidx, hget, hu, hst⟩ := updateFavorite_ok hok
  have hii : i0 = i := by
    rw [hidx0] at hidx
    exact Option.some.inj hidx
  subst hii
  have hex : existing = E := by
    rw [hget0] at hget
    exact (Option.some.inj hget).symm
  subst hex
  have hui : u.updatedAt = now := by
    rw [hu, applyUpdate, hU]
    rfl
  have hlen : i0 < storage.favorites.length := by
    by_contra hcon
    rw [List.getElem?_eq_none (Nat.le_of_not_lt hcon)] at hget0
    exact Option.noConfusion hget0
  refine ⟨by rw [hu]; rfl, by rw [hu]; rfl, hui, by rw [hui]; exact hnow,
    by rw [hu]; rfl, by rw [hu]; rfl, i0, hget0, by rw [hst], ?_⟩
  rw [hst]
  exact List.getElem?_set_self (by simpa using hlen)

/-- Witness for the amended C1: renaming `fav1` at clock `99`. -/
theorem updateFavorite_preserves_identity_witness :
    (fullStore.favorites.find? (fun e => e.id == fav1.id) = some fav1 ∧
     (({ name := some "new" } : FavUpdate)).updatedAt = none ∧
     fav1.updatedAt < 99 ∧
     updateFavorite fullStore fav1.id { name := some "new" } 99 =
       .ok (applyUpdate fav1 { name := some "new" } 99,
         { fullStore with
           favorites := fullStore.favorites.set 0 (applyUpdate fav1 { name := some "new" } 99) })) ∧
    ((applyUpdate fav1 { name := some "new" } 99).id = fav1.id ∧
     (applyUpdate fav1 { name := some "new" } 99).createdAt = fav1.createdAt ∧
     (applyUpdate fav1 { name := some "new" } 99).updatedAt = 99 ∧
     fav1.updatedAt < (applyUpdate fav1 { name := some "new" } 99).updatedAt ∧
     (applyUpdate fav1 { name := some "new" } 99).text =
       (({ name := some "new" } : FavUpdate)).text.getD fav1.text ∧
     (applyUpdate fav1 { name := some "new" } 99).name =
       (({ name := some "new" } : FavUpdate)).name.getD fav1.name ∧
     ∃ i, fullStore.favorites[i]? = some fav1 ∧
       ({ fullStore with
          favorites := fullStore.favorites.set 0 (applyUpdate fav1 { name := some "new" } 99) } : ExtensionStorage).favorites =
         fullStore.favorites.set i (applyUpdate fav1 { name := some "new" } 99) ∧
       ({ fullStore with
          favorites := fullStore.favorites.set 0 (applyUpdate fav1 { name := some "new" } 99) } : ExtensionStorage).favorites[i]? =
         some (applyUpdate fav1 { name := some "new" } 99)) :=
  ⟨⟨by decide, rfl, by decide, rfl⟩,
   updateFavorite_preserves_identity fullStore fav1 { name := some "new" } 99
     (applyUpdate fav1 { name := some "new" } 99)
     { fullStore with
       favorites := fullStore.favorites.set 0 (applyUpdate fav1 { name := some "new" } 99) }
     (by decide) rfl (by decide) rfl⟩

/-! ## Lemmas: `lastIdxOf` is the greatest occurrence index -/

lemma lastIdxOf_none {c : Char} : ∀ {l : List Char}, lastIdxOf c l = none →
    ∀ j : Nat, l[j]? ≠ some c := by
  intro l
  induction l with
  | nil => intro _ j; simp
  | cons x xs ih =>
    intro h j
    unfold lastIdxOf at h
    cases h' : lastIdxOf c xs with
    | some k => rw [h'] at h; exact Option.noConfusion h
    | none =>
      rw [h'] at h
      have hx : x ≠ c := by
        intro hxc
        rw [if_pos hxc] at h
        exact Option.noConfusion h
      cases j with
      | zero => simpa using hx
      | succ j' => simpa using ih h' j'

lemma lastIdxOf_some {c : Char} : ∀ {l : List Char} {i : Nat},
    lastIdxOf c l = some i →
    l[i]? = some c ∧ ∀ j : Nat, i < j → l[j]? ≠ some c := by
  intro l
  induction l with
  | nil => intro i h; exact Option.noConfusion h
  | cons x xs ih =>
    intro i h
    unfold lastIdxOf at h
    cases h' : lastIdxOf c xs with
    | some k =>
      rw [h'] at h
      obtain rfl : k + 1 = i := Option.some.inj h
      obtain ⟨hget, hmax⟩ := ih h'
      refine ⟨by simpa using hget, ?_⟩
      intro j hj
      match j, hj with
      | j' + 1, hj =>
        simpa using hmax j' (by omega)
    | none =>
      rw [h'] at h
      by_cases hx : x = c
      · rw [if_pos hx] at h
        obtain rfl : 0 = i := Option.some.inj h
        refine ⟨by simpa using hx, ?_⟩
        intro j hj
        match j, hj with
        | j' + 1, _ => simpa using lastIdxOf_none h' j'
      · rw [if_neg hx] at h
        exact Option.noConfusion h

/-! ## C6: `generateDefaultName` -/

/-- C6 (confirmed).  With `cleanOf text` the whitespace-collapsed trim of
the input: an empty result gives the fixed-label + date-time fallback
(non-empty); a result of at most 30 characters is returned verbatim; a
longer result is cut to its first 30 characters, then either truncated to
the last space found at an index above 15 (when one exists) with the
ellipsis marker appended, or kept at exactly 30 characters with the marker
appended. -/
theorem generateDefaultName_spec (text nowString : String) :
    (cleanOf text = [] →
      generateDefaultName text nowString = "QR Code " ++ nowString ∧
      generateDefaultName text nowString ≠ "") ∧
    (cleanOf text ≠ [] → (cleanOf text).length ≤ 30 →
      generateDefaultName text nowString = String.mk (cleanOf text)) ∧
    (30 < (cleanOf text).length →
      ((∃ j, 15 < j ∧ ((cleanOf text).take 30)[j]? = some ' ') →
        ∃ i, 15 < i ∧ ((cleanOf text).take 30)[i]? = some ' ' ∧
          (∀ j, i < j → ((cleanOf text).take 30)[j]? ≠ some ' ') ∧
          generateDefaultName text nowString =
            String.mk (((cleanOf text).take 30).take i) ++ "...") ∧
      ((∀ j, 15 < j → ((cleanOf text).take 30)[j]? ≠ some ' ') →
        generateDefaultName text nowString =
          String.mk ((cleanOf text).take 30) ++ "...")) := by
  refine ⟨?_, ?_, ?_⟩
  · intro h
    have h1 : generateDefaultName text nowString = "QR Code " ++ nowString := by
      simp only [generateDefaultName]
      rw [if_pos (by rw [h]; rfl)]
    refine ⟨h1, ?_⟩
    rw [h1]
    intro heq
    have hlen := congrArg String.length heq
    rw [String.length_append] at hlen
    have h8 : "QR Code ".length = 8 := rfl
    have h0 : "".length = 0 := rfl
    rw [h8, h0] at hlen
    omega
  · intro hne hle
    have h0 : ¬ (cleanOf text).length = 0 := by
      simpa [List.length_eq_zero] using hne
    simp only [generateDefaultName]
    rw [if_neg h0, if_pos hle]
  · intro h30
    have h0 : ¬ (cleanOf text).length = 0 := by omega
    have hgt : ¬ (cleanOf text).length ≤ 30 := by omega
    constructor
    · rintro ⟨j, hj15, hsp⟩
      cases hL : lastIdxOf ' ' ((cleanOf text).take 30) with
      | none => exact absurd hsp (lastIdxOf_none hL j)
      | some i =>
        obtain ⟨hget, hmax⟩ := lastIdxOf_some hL
        have hi15 : 15 < i := by
          rcases Nat.lt_or_ge i j with hij | hij
          · exact absurd hsp (hmax j hij)
          · omega
        refine ⟨i, hi15, hget, hmax, ?_⟩
        simp only [generateDefaultName]
        rw [if_neg h0, if_neg hgt, hL]
        simp only [if_pos hi15]
    · intro hno
      cases hL : lastIdxOf ' ' ((cleanOf text).take 30) with
      | none =>
        simp only [generateDefaultName]
        rw [if_neg h0, if_neg hgt, hL]
      | some i =>
        obtain ⟨hget, _⟩ := lastIdxOf_some hL
        have hi : ¬ 15 < i := fun h15 => hno i h15 hget
        simp only [generateDefaultName]
        rw [if_neg h0, if_neg hgt, hL]
        simp only [if_neg hi]

/-- Witness for C6: the empty-input fallback and the verbatim short case. -/
theorem generateDefaultName_spec_witness :
    (cleanOf "" = [] ∧ generateDefaultName "" "T" = "QR Code " ++ "T" ∧
      generateDefaultName "" "T" ≠ "") ∧
    (cleanOf "short text" ≠ [] ∧ (cleanOf "short text").length ≤ 30 ∧
      generateDefaultName "short text" "T" = String.mk (cleanOf "short text")) :=
  ⟨⟨by decide, ((generateDefaultName_spec "" "T").1 (by decide)).1,
    ((generateDefaultName_spec "" "T").1 (by decide)).2⟩,
   ⟨by decide, by decide,
    (generateDefaultName_spec "short text" "T").2.1 (by decide) (by decide)⟩⟩

/-! ## Lemmas: propositional characterizations of the validators -/

lemma isStringField_iff (v : JVal) (k : String) :
    isStringField v k = true ↔ ∃ s, getField v k = some (.str s) := by
  unfold isStringField
  cases h : getField v k with
  | none => simp
  | some g => cases g <;> simp

lemma import_text_iff (e : JVal) :
    (match getField e "text" with
     | some (.str t) => decide (0 < (jsTrimS t).length)
     | _ => false) = true ↔
    ∃ t, getField e "text" = some (.str t) ∧ 0 < (jsTrimS t).length := by
  cases h : getField e "text" with
  | none => simp
  | some g => cases g <;> simp

lemma isValidImportEntry_iff (e : JVal) :
    isValidImportEntry e = true ↔
      isObjectType e = true ∧ isNullJ e = false ∧
      (∃ t, getField e "text" = some (.str t) ∧ 0 < (jsTrimS t).length) ∧
      (∃ nm, getField e "name" = some (.str nm)) := by
  unfold isValidImportEntry
  rw [Bool.and_eq_true, Bool.and_eq_true, Bool.and_eq_true, Bool.not_eq_true',
    import_text_iff, isStringField_iff]
  tauto

/-- The spec-side reading of a structurally valid import payload: a truthy
object with a `favorites` array whose every element is a non-null object
carrying a string `text` with non-empty trim and a string `name`. -/
def ValidImportProp (v : JVal) : Prop :=
  truthy v = true ∧ isObjectType v = true ∧
  ∃ es : List JVal, getField v "favorites" = some (.arr es) ∧
    ∀ e ∈ es, isObjectType e = true ∧ isNullJ e = false ∧
      (∃ t, getField e "text" = some (.str t) ∧ 0 < (jsTrimS t).length) ∧
      (∃ nm, getField e "name" = some (.str nm))

lemma isValidImportData_iff (v : JVal) :
    isValidImportData v = true ↔ ValidImportProp v := by
  unfold isValidImportData ValidImportProp
  by_cases ht : truthy v
  · by_cases ho : isObjectType v
    · rw [if_neg (by simp [ht, ho])]
      cases hf : getField v "favorites" with
      | none => simp [ht, ho, hf]
      | some g =>
        cases g <;>
          simp [ht, ho, hf, List.all_eq_true, isValidImportEntry_iff]
    · have ho' : isObjectType v = false := by simpa using ho
      rw [if_pos (by simp [ho'])]
      simp [ho']
  · have ht' : truthy v = false := by simpa using ht
    rw [if_pos (by simp [ht'])]
    simp [ht']

/-- The spec-side reading of a structurally valid stored root. -/
def ValidStorageProp (v : JVal) : Prop :=
  truthy v = true ∧ isObjectType v = true ∧
  (∃ s, getField v "settings" = some s ∧ truthy s = true ∧
    isObjectType s = true ∧
    (∃ m : Int, getField s "maxFavorites" = some (.num m) ∧ 0 < m) ∧
    (∃ q : Int, getField s "defaultQRSize" = some (.num q) ∧ 0 < q)) ∧
  (∃ es : List JVal, getField v "favorites" = some (.arr es) ∧
    ∀ e ∈ es, isObjectType e = true ∧ isNullJ e = false ∧
      (∃ s, getField e "id" = some (.str s)) ∧
      (∃ s, getField e "text" = some (.str s)) ∧
      (∃ s, getField e "name" = some (.str s)))

lemma isValidEntryData_iff (e : JVal) :
    isValidEntryData e = true ↔
      isObjectType e = true ∧ isNullJ e = false ∧
      (∃ s, getField e "id" = some (.str s)) ∧
      (∃ s, getField e "text" = some (.str s)) ∧
      (∃ s, getField e "name" = some (.str s)) := by
  unfold isValidEntryData
  rw [Bool.and_eq_true, Bool.and_eq_true, Bool.and_eq_true, Bool.and_eq_true,
    Bool.not_eq_true', isStringField_iff, isStringField_iff, isStringField_iff]
  tauto

lemma num_pos_field_iff (s : JVal) (k : String) :
    (match getField s k with
     | some (.num m) => decide (0 < m)
     | _ => false) = true ↔
    ∃ m : Int, getField s k = some (.num m) ∧ 0 < m := by
  cases h : getField s k with
  | none => simp
  | some g => cases g <;> simp

lemma settingsFieldOk_iff (s : JVal) :
    settingsFieldOk s = true ↔
      truthy s = true ∧ isObjectType s = true ∧
      (∃ m : Int, getField s "maxFavorites" = some (.num m) ∧ 0 < m) ∧
      (∃ q : Int, getField s "defaultQRSize" = some (.num q) ∧ 0 < q) := by
  unfold settingsFieldOk
  by_cases hts : truthy s
  · by_cases hos : isObjectType s
    · rw [if_neg (by simp [hts, hos]), Bool.and_eq_true,
        num_pos_field_iff, num_pos_field_iff]
      simp [hts, hos]
    · have hos' : isObjectType s = false := by simpa using hos
      rw [if_pos (by simp [hos'])]
      simp [hos']
  · have hts' : truthy s = false := by simpa using hts
    rw [if_pos (by simp [hts'])]
    simp [hts']

lemma settingsMatch_iff (v : JVal) :
    (match getField v "settings" with
     | some s => settingsFieldOk s
     | none => false) = true ↔
    ∃ s, getField v "settings" = some s ∧ settingsFieldOk s = true := by
  cases h : getField v "settings" <;> simp

lemma favoritesMatch_iff (v : JVal) :
    (match getField v "favorites" with
     | some (.arr es) => es.all isValidEntryData
     | _ => false) = true ↔
    ∃ es, getField v "favorites" = some (.arr es) ∧
      ∀ e ∈ es, isValidEntryData e = true := by
  cases h : getField v "favorites" with
  | none => simp
  | some g => cases g <;> simp [List.all_eq_true]

lemma isValidStorageData_iff (v : JVal) :
    isValidStorageData v = true ↔ ValidStorageProp v := by
  unfold isValidStorageData ValidStorageProp
  by_cases ht : truthy v
  · by_cases ho : isObjectType v
    · rw [if_neg (by simp [ht, ho]), Bool.and_eq_true, settingsMatch_iff,
        favoritesMatch_iff]
      simp only [settingsFieldOk_iff, isValidEntryData_iff, ht, ho, true_and]
    · have ho' : isObjectType v = false := by simpa using ho
      rw [if_pos (by simp [ho'])]
      simp [ho']
  · have ht' : truthy v = false := by simpa using ht
    rw [if_pos (by simp [ht'])]
    simp [ht']

/-! ## C5: the import format-error condition -/

/-- A payload whose single entry has the EMPTY STRING as `name`. -/
def emptyNamePayload : JVal :=
  .obj [("favorites", .arr [.obj [("text", .str "a"), ("name", .str "")]])]

/-- A payload whose single entry has whitespace-only (but non-empty) `text`. -/
def wsTextPayload : JVal :=
  .obj [("favorites", .arr [.obj [("text", .str " "), ("name", .str "x")]])]

/-- Counterexample to C5 as stated: `isValidImportData`
(storage-service.ts:451-459) checks `typeof entry.name === 'string'` but
never that `name` is non-empty, so a payload whose entry has `name: ""` is
accepted — no format error is raised, while the claim demands rejection.
(Conversely, a whitespace-only `text` — a non-empty string — IS rejected,
because the check is on `text.trim()`.) -/
theorem import_format_accepts_empty_name :
    importFormatError (.ok emptyNamePayload) = none ∧
    isValidImportData emptyNamePayload = true ∧
    importFormatError (.ok wsTextPayload) = some .invalidImportFormat ∧
    (" " : String) ≠ "" := by
  refine ⟨by decide, by decide, by decide, by decide⟩

/-- C5 (amended).  `importHistory` raises a format error exactly when the
payload is not parseable JSON, or is not a truthy object with a `favorites`
array, or some entry of that array is not a non-null object with a string
`text` whose trim is non-empty and a string `name`.  An empty `name` is
accepted; a whitespace-only `text` is rejected. -/
theorem importFormatError_iff (parsed : Except Unit JVal) :
    importFormatError parsed = none ↔
      ∃ v, parsed = .ok v ∧ ValidImportProp v := by
  cases parsed with
  | error e => simp [importFormatError]
  | ok v =>
    unfold importFormatError
    by_cases h : isValidImportData v
    · simp only [h, Bool.not_true, Bool.false_eq_true, if_false]
      simp [(isValidImportData_iff v).mp h]
    · have h' : isValidImportData v = false := by simpa using h
      simp only [h', Bool.not_false, if_true]
      constructor
      · intro hc; exact absurd hc (by simp)
      · rintro ⟨v', hv', hval⟩
        rw [Except.ok.injEq] at hv'
        subst hv'
        exact absurd ((isValidImportData_iff v).mpr hval) h

/-- A well-formed one-entry import payload. -/
def wellFormedPayload : JVal :=
  .obj [("favorites", .arr [.obj [("text", .str "hello"), ("name", .str "n")]])]

/-- Witness for the amended C5: a well-formed one-entry payload passes the
gate, a parse failure does not. -/
theorem importFormatError_iff_witness :
    (importFormatError (.ok wellFormedPayload) = none ↔
      ∃ v, (.ok wellFormedPayload : Except Unit JVal) = .ok v ∧ ValidImportProp v) ∧
    importFormatError (.ok wellFormedPayload) = none ∧
    (importFormatError (.error ()) = none ↔
      ∃ v, (.error () : Except Unit JVal) = .ok v ∧ ValidImportProp v) ∧
    importFormatError (.error ()) ≠ none :=
  ⟨importFormatError_iff (.ok wellFormedPayload), by decide,
   importFormatError_iff (.error ()), by decide⟩

/-! ## C7: load never raises on structural problems -/

/-- C7 (confirmed).  `loadExtensionStorage` is modelled as a TOTAL function
(it has no error result): an absent root loads as the default root, and a
present but structurally invalid root — in particular any root with
missing/mistyped `settings.maxFavorites` or `settings.defaultQRSize`,
non-array `favorites`, or a favorite whose `id`/`text`/`name` is not a
string, all of which falsify `ValidStorageProp` — also loads as the default
root instead of raising. -/
theorem loadExtensionStorage_never_fails (stored : Option JVal) :
    (stored = none → loadExtensionStorage stored = createDefaultStorage) ∧
    (∀ v, stored = some v → ¬ ValidStorageProp v →
      loadExtensionStorage stored = createDefaultStorage) := by
  refine ⟨?_, ?_⟩
  · rintro rfl; rfl
  · rintro v rfl hnv
    simp only [loadExtensionStorage]
    by_cases ht : truthy v
    · have hv : isValidStorageData v = false := by
        cases h : isValidStorageData v with
        | false => rfl
        | true => exact absurd ((isValidStorageData_iff v).mp h) hnv
      rw [if_neg (by simp [ht]), if_pos (by simp [hv])]
    · have ht' : truthy v = false := by simpa using ht
      rw [if_pos (by simp [ht'])]

/-- Witness for C7: the absent root and a concrete malformed root. -/
theorem loadExtensionStorage_never_fails_witness :
    loadExtensionStorage none = createDefaultStorage ∧
    loadExtensionStorage (some (.num 5)) = createDefaultStorage :=
  ⟨(loadExtensionStorage_never_fails none).1 rfl,
   (loadExtensionStorage_never_fails (some (.num 5))).2 (.num 5) rfl
     (fun hv => absurd ((isValidStorageData_iff (.num 5)).mpr hv) (by decide))⟩

/-! ## Lemmas: serialization round-trips -/

lemma parseEntry_entryToJson (e : HistoryEntry) :
    parseEntry (entryToJson e) = e := by
  cases e with
  | mk id text name createdAt updatedAt =>
    simp [parseEntry, entryToJson, getField, List.lookup, jsNewDate,
      parseDateString_isoRender]

lemma parseSettings_settingsToJson (s : ExtensionSettings) :
    parseSettings (settingsToJson s) = s := by
  cases s with
  | mk m q last =>
    cases last <;>
      simp [parseSettings, settingsToJson, getField, List.lookup]

lemma isValidEntryData_entryToJson (e : HistoryEntry) :
    isValidEntryData (entryToJson e) = true := by
  simp [isValidEntryData, entryToJson, isObjectType, isNullJ, isStringField,
    getField, List.lookup]

lemma settingsFieldOk_settingsToJson (s : ExtensionSettings)
    (hm : 0 < s.maxFavorites) (hq : 0 < s.defaultQRSize) :
    settingsFieldOk (settingsToJson s) = true := by
  rw [settingsFieldOk_iff]
  refine ⟨rfl, ?_, ⟨s.maxFavorites, ?_, hm⟩, ⟨s.defaultQRSize, ?_, hq⟩⟩
  · cases hs : s.lastAccessedId <;> simp [settingsToJson, isObjectType]
  · cases hs : s.lastAccessedId <;> simp [settingsToJson, getField, List.lookup]
  · cases hs : s.lastAccessedId <;> simp [settingsToJson, getField, List.lookup]

lemma getField_storageToJson_settings (st : ExtensionStorage) :
    getField (storageToJson st) "settings" = some (settingsToJson st.settings) := by
  simp [storageToJson, getField, List.lookup]

lemma getField_storageToJson_favorites (st : ExtensionStorage) :
    getField (storageToJson st) "favorites" =
      some (.arr (st.favorites.map entryToJson)) := by
  simp [storageToJson, getField, List.lookup]

lemma isValidStorageData_storageToJson (st : ExtensionStorage)
    (hm : 0 < st.settings.maxFavorites) (hq : 0 < st.settings.defaultQRSize) :
    isValidStorageData (storageToJson st) = true := by
  rw [isValidStorageData_iff]
  refine ⟨rfl, rfl, ?_, ?_⟩
  · refine ⟨settingsToJson st.settings, getField_storageToJson_settings st, ?_⟩
    have := settingsFieldOk_settingsToJson st.settings hm hq
    rw [settingsFieldOk_iff] at this
    exact this
  · refine ⟨st.favorites.map entryToJson, getField_storageToJson_favorites st, ?_⟩
    intro e he
    rw [List.mem_map] at he
    obtain ⟨x, _, rfl⟩ := he
    have := isValidEntryData_entryToJson x
    rw [isValidEntryData_iff] at this
    exact this

lemma parseStorage_storageToJson (st : ExtensionStorage) :
    parseStorage (storageToJson st) = st := by
  cases st with
  | mk favs settings =>
    unfold parseStorage
    rw [getField_storageToJson_favorites, getField_storageToJson_settings]
    simp only [List.map_map]
    have hmap : favs.map (parseEntry ∘ entryToJson) = favs.map id :=
      List.map_congr_left (fun e _ => parseEntry_entryToJson e)
    rw [ExtensionStorage.mk.injEq]
    exact ⟨by rw [hmap, List.map_id], parseSettings_settingsToJson settings⟩

/-- Inversion of a successful `saveExtensionStorage`. -/
lemma saveExtensionStorage_ok {st : ExtensionStorage} {blob : JVal}
    (h : saveExtensionStorage st = .ok blob) :
    isExtensionStorageB st = true ∧ blob = storageToJson st := by
  unfold saveExtensionStorage at h
  split at h
  · exact absurd h (by simp)
  next hb =>
    split at h
    · exact absurd h (by simp)
    · refine ⟨?_, (Except.ok.inj h).symm⟩
      rcases hv : isExtensionStorageB st with _ | _
      · rw [hv] at hb; exact absurd rfl hb
      · rfl

/-! ## C8: save/load round-trip -/

/-- C8 (confirmed).  Whenever `saveExtensionStorage(R)` succeeds — it
validates the root and serializes it (`Date` fields passing into their
string form inside the store) — a following `loadExtensionStorage()` parses
the stored blob back to exactly `R`: string fields verbatim, timestamps
through the string round-trip. -/
theorem save_load_roundtrip (R : ExtensionStorage) (blob : JVal)
    (hok : saveExtensionStorage R = .ok blob) :
    loadExtensionStorage (some blob) = R := by
  obtain ⟨hval, rfl⟩ := saveExtensionStorage_ok hok
  unfold isExtensionStorageB isExtensionSettingsB at hval
  rw [Bool.and_eq_true, Bool.and_eq_true] at hval
  obtain ⟨-, hm, hq⟩ := hval
  rw [decide_eq_true_eq] at hm hq
  simp only [loadExtensionStorage]
  rw [if_neg (by simp [truthy, storageToJson]),
    if_neg (by simp [isValidStorageData_storageToJson R hm hq])]
  exact parseStorage_storageToJson R

/-- Witness for C8: the one-entry root `fullStore` round-trips. -/
theorem save_load_roundtrip_witness :
    saveExtensionStorage fullStore = .ok (storageToJson fullStore) ∧
    loadExtensionStorage (some (storageToJson fullStore)) = fullStore :=
  ⟨rfl, save_load_roundtrip fullStore (storageToJson fullStore) rfl⟩

/-! ## Lemmas: the eviction sort is a descending permutation -/

lemma insertByUpdatedDesc_perm (e : HistoryEntry) (l : List HistoryEntry) :
    (insertByUpdatedDesc e l).Perm (e :: l) := by
  induction l with
  | nil => exact List.Perm.refl _
  | cons y ys ih =>
    unfold insertByUpdatedDesc
    split
    · exact (List.Perm.cons y ih).trans (List.Perm.swap e y ys)
    · exact List.Perm.refl _

lemma sortByUpdatedDesc_perm (l : List HistoryEntry) :
    (sortByUpdatedDesc l).Perm l := by
  induction l with
  | nil => exact List.Perm.refl _
  | cons x xs ih =>
    exact (insertByUpdatedDesc_perm x _).trans (List.Perm.cons x ih)

lemma insertByUpdatedDesc_pairwise {e : HistoryEntry} {l : List HistoryEntry}
    (h : List.Pairwise (fun a b => b.updatedAt ≤ a.updatedAt) l) :
    List.Pairwise (fun a b => b.updatedAt ≤ a.updatedAt)
      (insertByUpdatedDesc e l) := by
  induction l with
  | nil => simp [insertByUpdatedDesc]
  | cons y ys ih =>
    rw [List.pairwise_cons] at h
    obtain ⟨hy, hys⟩ := h
    unfold insertByUpdatedDesc
    split
    · next hlt =>
      rw [List.pairwise_cons]
      refine ⟨?_, ih hys⟩
      intro z hz
      rcases List.mem_cons.mp
          ((insertByUpdatedDesc_perm e ys).mem_iff.mp hz) with rfl | hz'
      · exact le_of_lt hlt
      · exact hy z hz'
    · next hge =>
      rw [List.pairwise_cons]
      refine ⟨?_, by rw [List.pairwise_cons]; exact ⟨hy, hys⟩⟩
      intro z hz
      rcases List.mem_cons.mp hz with rfl | hz'
      · exact le_of_not_lt hge
      · exact le_trans (hy z hz') (le_of_not_lt hge)

lemma sortByUpdatedDesc_pairwise (l : List HistoryEntry) :
    List.Pairwise (fun a b => b.updatedAt ≤ a.updatedAt)
      (sortByUpdatedDesc l) := by
  induction l with
  | nil => simp [sortByUpdatedDesc]
  | cons x xs ih => exact insertByUpdatedDesc_pairwise ih

lemma sorted_drop_le_take {l : List HistoryEntry}
    (h : List.Pairwise (fun a b => b.updatedAt ≤ a.updatedAt) l) (n : Nat) :
    ∀ d ∈ l.drop n, ∀ k ∈ l.take n, d.updatedAt ≤ k.updatedAt := by
  rw [← List.take_append_drop n l, List.pairwise_append] at h
  intro d hd k hk
  exact h.2.2 k (by simpa using hk) d (by simpa using hd)

/-! ## Lemmas: the ceiling enforcement of `importHistory` -/

/-- What the post-import ceiling enforcement guarantees: `imported` and the
settings untouched, the resulting count capped at the ceiling, one skip per
evicted entry, and every evicted entry at most as recently updated as every
kept one. -/
def EnforceLimitSpec (st : ExtensionStorage) (imported skipped : Nat) : Prop :=
  (enforceLimit st imported skipped).2.1 = imported ∧
  (enforceLimit st imported skipped).1.settings = st.settings ∧
  (enforceLimit st imported skipped).1.favorites.length =
    min st.favorites.length st.settings.maxFavorites.toNat ∧
  (enforceLimit st imported skipped).2.2 =
    skipped + (st.favorites.length - st.settings.maxFavorites.toNat) ∧
  ∃ evicted,
    ((enforceLimit st imported skipped).1.favorites ++ evicted).Perm st.favorites ∧
    evicted.length = st.favorites.length - st.settings.maxFavorites.toNat ∧
    ∀ d ∈ evicted, ∀ k ∈ (enforceLimit st imported skipped).1.favorites,
      d.updatedAt ≤ k.updatedAt

lemma enforceLimit_spec (st : ExtensionStorage) (imported skipped : Nat)
    (hmax : 0 < st.settings.maxFavorites) :
    EnforceLimitSpec st imported skipped := by
  unfold EnforceLimitSpec enforceLimit
  by_cases hover : st.settings.maxFavorites < (st.favorites.length : Int)
  · rw [if_pos hover]
    have hoverN : st.settings.maxFavorites.toNat < st.favorites.length := by
      omega
    have hperm := sortByUpdatedDesc_perm st.favorites
    have hlen : (sortByUpdatedDesc st.favorites).length = st.favorites.length :=
      hperm.length_eq
    refine ⟨rfl, rfl, ?_, rfl,
      (sortByUpdatedDesc st.favorites).drop st.settings.maxFavorites.toNat,
      ?_, ?_, ?_⟩
    · simp only [List.length_take]
      omega
    · rw [List.take_append_drop]
      exact hperm
    · rw [List.length_drop]
      omega
    · intro d hd k hk
      exact sorted_drop_le_take (sortByUpdatedDesc_pairwise st.favorites) _ d hd k hk
  · rw [if_neg hover]
    have hle : st.favorites.length ≤ st.settings.maxFavorites.toNat := by omega
    refine ⟨rfl, rfl, by simp; omega, by simp; omega, [], ?_, ?_, ?_⟩
    · rw [List.append_nil]
    · simp
      omega
    · intro d hd
      exact absurd hd (List.not_mem_nil d)

lemma enforceLimit_imported (st : ExtensionStorage) (imported skipped : Nat) :
    (enforceLimit st imported skipped).2.1 = imported := by
  unfold enforceLimit
  split <;> rfl

lemma enforceLimit_skipped_ge (st : ExtensionStorage) (imported skipped : Nat) :
    skipped ≤ (enforceLimit st imported skipped).2.2 := by
  unfold enforceLimit
  split
  · exact Nat.le_add_right _ _
  · exact Nat.le_refl _

lemma enforceLimit_textCount_le (st : ExtensionStorage)
    (imported skipped : Nat) (t : String) :
    ((enforceLimit st imported skipped).1.favorites.map (·.text)).count t ≤
      (st.favorites.map (·.text)).count t := by
  unfold enforceLimit
  split
  · have h1 : (((sortByUpdatedDesc st.favorites).take
        st.settings.maxFavorites.toNat).map (·.text)).Sublist
        ((sortByUpdatedDesc st.favorites).map (·.text)) :=
      (List.take_sublist _ _).map _
    have h2 := h1.count_le t
    have h3 : ((sortByUpdatedDesc st.favorites).map (·.text)).count t =
        (st.favorites.map (·.text)).count t :=
      ((sortByUpdatedDesc_perm st.favorites).map _).count_eq t
    calc (((sortByUpdatedDesc st.favorites).take
            st.settings.maxFavorites.toNat).map (·.text)).count t
        ≤ ((sortByUpdatedDesc st.favorites).map (·.text)).count t := h2
      _ = (st.favorites.map (·.text)).count t := h3
  · exact Nat.le_refl _

/-! ## Lemmas: the merge loop -/

/-- Full characterization of the merge loop: some sublist `app` of fresh
entries is appended behind the accumulator; `imported` counts the appends
and `skipped` the rest; appended texts are pairwise distinct and disjoint
from the seed set; each appended entry copies a payload entry's fields
under a generated id; and every payload text missing from the seed set gets
appended at least once. -/
lemma mergeLoop_spec (fresh : Nat → String) :
    ∀ (payload : List ImportEntry) (texts : List String)
      (favs : List HistoryEntry) (imported skipped : Nat),
    ∃ app : List HistoryEntry,
      mergeLoop fresh payload texts favs imported skipped =
        (favs ++ app, imported + app.length,
         skipped + (payload.length - app.length)) ∧
      app.length ≤ payload.length ∧
      (app.map (·.text)).Nodup ∧
      (∀ a ∈ app, a.text ∉ texts) ∧
      (∀ a ∈ app, ∃ e ∈ payload, a.text = e.text ∧ a.name = e.name ∧
        a.createdAt = e.createdAt ∧ a.updatedAt = e.updatedAt) ∧
      (∀ a ∈ app, ∃ i, a.id = fresh i) ∧
      (∀ e ∈ payload, e.text ∉ texts → ∃ a ∈ app, a.text = e.text) := by
  intro payload
  induction payload with
  | nil =>
    intro texts favs imported skipped
    refine ⟨[], by simp [mergeLoop], by simp, by simp, by simp, by simp,
      by simp, by simp⟩
  | cons e rest ih =>
    intro texts favs imported skipped
    simp only [mergeLoop]
    by_cases hmem : e.text ∈ texts
    · rw [if_pos hmem]
      obtain ⟨app, heq, hlen, hnodup, hnotin, hcorr, hids, hfirst⟩ :=
        ih texts favs imported (skipped + 1)
      refine ⟨app, ?_, ?_, hnodup, hnotin, ?_, hids, ?_⟩
      · rw [heq]
        simp only [Prod.mk.injEq, List.length_cons]
        refine ⟨by trivial, by trivial, by omega⟩
      · simp only [List.length_cons]
        omega
      · intro a ha
        obtain ⟨e', he', h'⟩ := hcorr a ha
        exact ⟨e', List.mem_cons_of_mem _ he', h'⟩
      · intro e' he' hnot
        rcases List.mem_cons.mp he' with rfl | hmem'
        · exact absurd hmem hnot
        · exact hfirst e' hmem' hnot
    · rw [if_neg hmem]
      obtain ⟨app, heq, hlen, hnodup, hnotin, hcorr, hids, hfirst⟩ :=
        ih (e.text :: texts)
          (favs ++ [{ id := fresh imported, text := e.text, name := e.name,
                      createdAt := e.createdAt, updatedAt := e.updatedAt }])
          (imported + 1) skipped
      refine ⟨{ id := fresh imported, text := e.text, name := e.name,
                createdAt := e.createdAt, updatedAt := e.updatedAt } :: app,
        ?_, ?_, ?_, ?_, ?_, ?_, ?_⟩
      · rw [heq]
        simp only [Prod.mk.injEq, List.length_cons]
        refine ⟨by rw [List.append_assoc, List.singleton_append], by omega,
          by omega⟩
      · simp only [List.length_cons]
        omega
      · rw [List.map_cons, List.nodup_cons]
        refine ⟨?_, hnodup⟩
        intro hin
        rw [List.mem_map] at hin
        obtain ⟨a, ha, hat⟩ := hin
        exact (hnotin a ha) (hat ▸ List.mem_cons_self _ _)
      · intro a ha
        rcases List.mem_cons.mp ha with rfl | ha'
        · exact hmem
        · exact fun hc => (hnotin a ha') (List.mem_cons_of_mem _ hc)
      · intro a ha
        rcases List.mem_cons.mp ha with rfl | ha'
        · exact ⟨e, List.mem_cons_self _ _, rfl, rfl, rfl, rfl⟩
        · obtain ⟨e', he', h'⟩ := hcorr a ha'
          exact ⟨e', List.mem_cons_of_mem _ he', h'⟩
      · intro a ha
        rcases List.mem_cons.mp ha with rfl | ha'
        · exact ⟨imported, rfl⟩
        · exact hids a ha'
      · intro e' he' hnot
        rcases List.mem_cons.mp he' with rfl | hmem'
        · exact ⟨_, List.mem_cons_self _ _, rfl⟩
        · by_cases hsame : e'.text = e.text
          · exact ⟨_, List.mem_cons_self _ _, hsame.symm⟩
          · obtain ⟨a, ha, hat⟩ := hfirst e' hmem' (by
              intro hc
              rcases List.mem_cons.mp hc with h1 | h2
              · exact hsame h1
              · exact hnot h2)
            exact ⟨a, List.mem_cons_of_mem _ ha, hat⟩

/-! ## C3: replace-mode import and the eviction policy -/

/-- What replace-mode import guarantees: `imported = N`; the stored list
ends up with `min N maxFavorites` entries; `skipped` counts exactly the
evictions; and the evicted entries — a complement of the kept ones inside
the mapped payload — are all at most as recently updated as every kept
entry. -/
def ReplaceImportSpec (storage : ExtensionStorage) (payload : List ImportEntry)
    (fresh : Nat → String) : Prop :=
  (importHistoryTyped storage payload .replace fresh).2.1 = payload.length ∧
  (importHistoryTyped storage payload .replace fresh).1.favorites.length =
    min payload.length storage.settings.maxFavorites.toNat ∧
  (importHistoryTyped storage payload .replace fresh).2.2 =
    payload.length - min payload.length storage.settings.maxFavorites.toNat ∧
  ∃ evicted,
    ((importHistoryTyped storage payload .replace fresh).1.favorites ++
      evicted).Perm (replaceEntries fresh payload) ∧
    evicted.length =
      payload.length - min payload.length storage.settings.maxFavorites.toNat ∧
    ∀ d ∈ evicted,
      ∀ k ∈ (importHistoryTyped storage payload .replace fresh).1.favorites,
        d.updatedAt ≤ k.updatedAt

/-- C3 (confirmed).  Replace-mode import stores exactly `N` entries — or
exactly `maxFavorites` when `N` exceeds the ceiling, evicting only
least-recently-updated entries, one skip per eviction; and (either mode)
the ceiling enforcement obeys `EnforceLimitSpec`. -/
theorem replace_import_spec (storage : ExtensionStorage)
    (payload : List ImportEntry) (fresh : Nat → String)
    (hmax : 0 < storage.settings.maxFavorites) :
    ReplaceImportSpec storage payload fresh ∧
    (∀ st : ExtensionStorage, ∀ imported skipped : Nat,
      0 < st.settings.maxFavorites → EnforceLimitSpec st imported skipped) := by
  refine ⟨?_, fun st i s h => enforceLimit_spec st i s h⟩
  have hlenf : (replaceEntries fresh payload).length = payload.length := by
    unfold replaceEntries
    exact List.length_mapIdx
  have hspec := enforceLimit_spec
    { storage with favorites := replaceEntries fresh payload }
    (replaceEntries fresh payload).length 0 hmax
  unfold EnforceLimitSpec at hspec
  obtain ⟨h1, h2, h3, h4, evicted, h5, h6, h7⟩ := hspec
  dsimp only at h1 h2 h3 h4 h5 h6 h7
  unfold ReplaceImportSpec importHistoryTyped
  dsimp only
  rw [hlenf] at h1 h3 h4 h5 h6 h7 ⊢
  exact ⟨h1, h3, by omega, evicted, h5, by omega, h7⟩

/-- A three-entry import payload with pairwise-distinct update times. -/
def importPayload3 : List ImportEntry :=
  [{ text := "a", name := "a", updatedAt := 1 },
   { text := "b", name := "b", updatedAt := 9 },
   { text := "c", name := "c", updatedAt := 5 }]

/-- A concrete fresh-id supply. -/
def freshF : Nat → String := fun i => "f" ++ toString i

/-- Witness for C3: three entries into a one-entry ceiling. -/
theorem replace_import_spec_witness :
    0 < fullStore.settings.maxFavorites ∧
    (ReplaceImportSpec fullStore importPayload3 freshF ∧
     (∀ st : ExtensionStorage, ∀ imported skipped : Nat,
       0 < st.settings.maxFavorites → EnforceLimitSpec st imported skipped)) :=
  ⟨by decide, replace_import_spec fullStore importPayload3 freshF (by decide)⟩

/-! ## C4: merge-mode import deduplicates against the store -/

/-- What merge-mode import guarantees with respect to the already-stored
favorites: some list `app` of appended entries accounts for `imported`;
at least one skip per non-appended payload entry; every appended entry has
a text not already stored, a freshly generated id, and copies a payload
entry; every payload entry whose text is not already stored does get
appended; and no text that was already stored gains an occurrence. -/
def MergeImportSpec (storage : ExtensionStorage) (payload : List ImportEntry)
    (fresh : Nat → String) : Prop :=
  ∃ app : List HistoryEntry,
    (importHistoryTyped storage payload .merge fresh).2.1 = app.length ∧
    payload.length - app.length ≤
      (importHistoryTyped storage payload .merge fresh).2.2 ∧
    (∀ a ∈ app, a.text ∉ storage.favorites.map (·.text) ∧
      (∃ i, a.id = fresh i) ∧
      ∃ e ∈ payload, a.text = e.text ∧ a.name = e.name) ∧
    (∀ e ∈ payload, e.text ∉ storage.favorites.map (·.text) →
      ∃ a ∈ app, a.text = e.text) ∧
    (∀ t ∈ storage.favorites.map (·.text),
      ((importHistoryTyped storage payload .merge fresh).1.favorites.map
        (·.text)).count t ≤ (storage.favorites.map (·.text)).count t)

/-- C4 (confirmed, reading "already-stored" operationally).  A merge-mode
run skips every payload entry whose text is already present (in the
store, or appended meanwhile), appends the others under fresh ids, and
never duplicates a text that was already stored. -/
theorem merge_import_dedup (storage : ExtensionStorage)
    (payload : List ImportEntry) (fresh : Nat → String) :
    MergeImportSpec storage payload fresh := by
  obtain ⟨app, heq, hlen, hnodup, hnotin, hcorr, hids, hfirst⟩ :=
    mergeLoop_spec fresh payload (storage.favorites.map (·.text))
      storage.favorites 0 0
  unfold MergeImportSpec importHistoryTyped
  rw [heq]
  dsimp only
  refine ⟨app, ?_, ?_, ?_, hfirst, ?_⟩
  · rw [enforceLimit_imported]
    omega
  · have h := enforceLimit_skipped_ge
      { storage with favorites := storage.favorites ++ app }
      (0 + app.length) (0 + (payload.length - app.length))
    omega
  · intro a ha
    obtain ⟨e, he, h1, h2, -, -⟩ := hcorr a ha
    exact ⟨hnotin a ha, hids a ha, e, he, h1, h2⟩
  · intro t ht
    have hle := enforceLimit_textCount_le
      { storage with favorites := storage.favorites ++ app }
      (0 + app.length) (0 + (payload.length - app.length)) t
    dsimp only at hle
    have hz : (app.map (·.text)).count t = 0 := by
      rw [List.count_eq_zero]
      intro hin
      rw [List.mem_map] at hin
      obtain ⟨a, ha, hat⟩ := hin
      exact (hnotin a ha) (hat ▸ ht)
    rw [List.map_append, List.count_append, hz] at hle
    omega

/-! ## C10: merge-mode import deduplicates within the payload -/

/-- What merge-mode import guarantees within the payload: appended texts
are pairwise distinct; a payload text not already stored is appended
EXACTLY once however often it recurs, the later occurrences being skipped;
so the resulting store holds at most one entry per such text. -/
def MergePayloadDedupSpec (storage : ExtensionStorage)
    (payload : List ImportEntry) (fresh : Nat → String) : Prop :=
  ∃ app : List HistoryEntry,
    (importHistoryTyped storage payload .merge fresh).2.1 = app.length ∧
    payload.length - app.length ≤
      (importHistoryTyped storage payload .merge fresh).2.2 ∧
    (app.map (·.text)).Nodup ∧
    (∀ e ∈ payload, e.text ∉ storage.favorites.map (·.text) →
      (app.map (·.text)).count e.text = 1) ∧
    (∀ t, t ∉ storage.favorites.map (·.text) →
      ((importHistoryTyped storage payload .merge fresh).1.favorites.map
        (·.text)).count t ≤ 1)

/-- C10 (confirmed).  Within one merge import, only the first occurrence of
each not-yet-stored text is appended (and counted in `imported`); later
occurrences are skipped; afterwards the store holds at most one entry per
distinct imported text. -/
theorem merge_import_payload_dedup (storage : ExtensionStorage)
    (payload : List ImportEntry) (fresh : Nat → String) :
    MergePayloadDedupSpec storage payload fresh := by
  obtain ⟨app, heq, hlen, hnodup, hnotin, hcorr, hids, hfirst⟩ :=
    mergeLoop_spec fresh payload (storage.favorites.map (·.text))
      storage.favorites 0 0
  unfold MergePayloadDedupSpec importHistoryTyped
  rw [heq]
  dsimp only
  refine ⟨app, ?_, ?_, hnodup, ?_, ?_⟩
  · rw [enforceLimit_imported]
    omega
  · have h := enforceLimit_skipped_ge
      { storage with favorites := storage.favorites ++ app }
      (0 + app.length) (0 + (payload.length - app.length))
    omega
  · intro e he hnot
    have hmem : e.text ∈ app.map (·.text) := by
      obtain ⟨a, ha, hat⟩ := hfirst e he hnot
      rw [List.mem_map]
      exact ⟨a, ha, hat⟩
    have h1 : 0 < (app.map (·.text)).count e.text :=
      List.count_pos_iff.mpr hmem
    have h2 : (app.map (·.text)).count e.text ≤ 1 :=
      List.nodup_iff_count_le_one.mp hnodup _
    omega
  · intro t hnot
    have hle := enforceLimit_textCount_le
      { storage with favorites := storage.favorites ++ app }
      (0 + app.length) (0 + (payload.length - app.length)) t
    dsimp only at hle
    have h0 : (storage.favorites.map (·.text)).count t = 0 :=
      List.count_eq_zero.mpr hnot
    have h1 : (app.map (·.text)).count t ≤ 1 :=
      List.nodup_iff_count_le_one.mp hnodup t
    rw [List.map_append, List.count_append, h0] at hle
    omega

end QRExt
